import Mathlib

/-!
Verification development for the CPTOND transit segment pipeline.

This file gives a shallow embedding of the segment derivation and aggregation
engine of `code/Bus_Segment_Processor.py`; the corresponding functions in
`code/Metro_Segment_Processor.py` (`get_route_stops_ordered`,
`project_point_to_line`, `extract_line_segment`, `calculate_segment_distance`,
`create_segments_from_route`, `aggregate_segments`, `create_unique_stops`)
are line-for-line identical in their logic, so one embedding covers both.

Modelling conventions:
* Coordinates and distances are rationals (`ℚ`); Python floats with finite
  values are modelled exactly, and `round(x, 3)` is modelled by `round3`
  (round to the nearest multiple of 1/1000).  No theorem below depends on the
  behaviour of rounding at exact ties, so the difference between Python's
  bankers rounding on binary floats and `round3` is immaterial here.
* The geometric library primitives that the source wraps in try/except
  (`shapely`'s `line.project`, `shapely.ops.substring`, the `pyproj`
  reprojection and `length` computations) are external dependencies, not code
  of this repository; they enter the embedding as function parameters
  (`project_point_to_line`, `extract_line_segment`, `planarLength`,
  `nativeLength`), with `Option` capturing the `None`-on-exception wrapping
  done by the source.
* Python's insertion-ordered `dict`/`defaultdict` is modelled by an
  association list updated in place and extended at the end.  Python's `set`
  is modelled by its insertion-ordered list of distinct elements together
  with an enumeration parameter `listOfSet` standing for `list(s)`: the only
  guarantee the language gives about `list(s)` is that it enumerates each
  element of the set exactly once, i.e. it is a permutation of that list.
* `pandas.sort_values` and Python's `list.sort` are modelled by
  `List.insertionSort`, a stable sort (`list.sort` is stable Timsort;
  no theorem below depends on how the `sequence` pre-sort breaks ties).
* The source stores an `index` field in each stop projection record but never
  reads it afterwards; the embedding omits that dead field.
-/

/-- A 2D geographic coordinate (longitude, latitude); models a shapely Point. -/
structure Point where
  lon : ℚ
  lat : ℚ
deriving DecidableEq, Repr

/-- One row of the stops GeoDataFrame, as read by the segment processor.
All attribute fields are already strings (the source applies `str(...)` or
`.get(..., '')` before use); `sequence` is the upstream ordering hint. -/
structure StopRow where
  route_id : String
  stop_id : String
  name_cn : String
  name_en : String
  city_cn : String
  city_en : String
  sequence : Int
  geometry : Point
deriving DecidableEq, Repr

/-- One row of the routes GeoDataFrame.  `geometry` is `none` when the row's
geometry is undefined (Python `None`); `some []` models an empty LineString
(`route_geometry.is_empty`). -/
structure RouteRow where
  route_id : String
  route_cn : String
  city_cn : String
  city_en : String
  geometry : Option (List Point)
deriving DecidableEq, Repr

/-- The segment dictionary built by `create_segments_from_route`. -/
structure SegmentRec where
  s_stop_cn : String
  s_stop_en : String
  s_stopid : String
  e_stop_cn : String
  e_stop_en : String
  e_stopid : String
  distance : ℚ
  city_cn : String
  city_en : String
  geometry : List Point
deriving DecidableEq, Repr

/-- The aggregated segment dictionary produced by `aggregate_segments`:
a copy of the first group member with `num` added and `distance`, `city_cn`
overwritten. -/
structure AggSegmentRec extends SegmentRec where
  num : Nat
deriving DecidableEq, Repr

/-- The deduplicated stop dictionary produced by `create_unique_stops`. -/
structure UniqueStopRec where
  stop_cn : String
  stop_en : String
  stop_id : String
  num : Nat
  city_cn : String
  city_en : String
  geometry : Point
deriving DecidableEq, Repr

/-- One entry of the `stop_projections` list in `create_segments_from_route`
(the source also stores the enumeration index, which is never read). -/
structure Projection where
  stop_data : StopRow
  projection_distance : ℚ
deriving DecidableEq, Repr

/-- Python `set.add` on a set modelled as its insertion-ordered list of
distinct elements. -/
def addToSet {α : Type} [DecidableEq α] (s : List α) (x : α) : List α :=
  if x ∈ s then s else s ++ [x]

/-- The insertion-ordered list of distinct elements of a list (the state of a
Python set after adding the list's elements in order). -/
def distinctList {α : Type} [DecidableEq α] (l : List α) : List α := l.foldl addToSet []

/-- Python `round(q, 3)`: round to the nearest multiple of 1/1000. -/
def round3 (q : ℚ) : ℚ := (round (q * 1000) : ℤ) / 1000

/-- Comparison key used by `route_stops.sort_values('sequence')`. -/
def seqLE (a b : StopRow) : Prop := a.sequence ≤ b.sequence

instance : DecidableRel seqLE := fun a b => inferInstanceAs (Decidable (a.sequence ≤ b.sequence))

/-- Comparison key used by `stop_projections.sort(key=lambda x: x['projection_distance'])`. -/
def projLE (a b : Projection) : Prop := a.projection_distance ≤ b.projection_distance

instance : DecidableRel projLE := fun a b => inferInstanceAs (Decidable (a.projection_distance ≤ b.projection_distance))

/-- `BusSegmentProcessor.get_route_stops_ordered`: filter the stops of one
route and sort them by the `sequence` column. -/
def get_route_stops_ordered (route_id : String) (stops_gdf : List StopRow) : List StopRow :=
  let route_stops := stops_gdf.filter (fun s => s.route_id == route_id)
  if route_stops.length = 0 then route_stops
  else List.insertionSort seqLE route_stops

/-- The `stop_projections` loop of `create_segments_from_route`: project every
stop onto the route geometry, keeping (in order) the stops whose projection
succeeds.  `project_point_to_line` is the parameter modelling the source
method of the same name (a try/except wrapper around `line.project`). -/
def projectStops (project_point_to_line : Point → List Point → Option ℚ)
    (route_geometry : List Point) (stops_list : List StopRow) : List Projection :=
  stops_list.filterMap (fun stop_row =>
    (project_point_to_line stop_row.geometry route_geometry).map
      (fun d => { stop_data := stop_row, projection_distance := d }))

/-- The body of the consecutive-pair loop of `create_segments_from_route`:
slice the route between the two projection positions, fall back to the
straight two-point line between the stops' raw locations when slicing
returns `None`, compute the distance of whichever geometry was produced, and
build the segment dictionary.  `extract_line_segment` and `calcDist` are the
parameters modelling the source methods `extract_line_segment` and
`calculate_segment_distance`. -/
def mkSegment (extract_line_segment : List Point → ℚ → ℚ → Option (List Point))
    (calcDist : List Point → ℚ) (route_geometry : List Point)
    (city_cn city_en : String) (s e : Projection) : SegmentRec :=
  let segment_line :=
    match extract_line_segment route_geometry s.projection_distance e.projection_distance with
    | some l => l
    | none => [s.stop_data.geometry, e.stop_data.geometry]
  { s_stop_cn := s.stop_data.name_cn
    s_stop_en := s.stop_data.name_en
    s_stopid := s.stop_data.stop_id
    e_stop_cn := e.stop_data.name_cn
    e_stop_en := e.stop_data.name_en
    e_stopid := e.stop_data.stop_id
    distance := calcDist segment_line
    city_cn := city_cn
    city_en := city_en
    geometry := segment_line }

/-- `for i in range(len(stop_projections) - 1)`: one segment per consecutive
pair of the (sorted) projection list. -/
def mkSegments (extract_line_segment : List Point → ℚ → ℚ → Option (List Point))
    (calcDist : List Point → ℚ) (route_geometry : List Point)
    (city_cn city_en : String) : List Projection → List SegmentRec
  | a :: b :: rest =>
    mkSegment extract_line_segment calcDist route_geometry city_cn city_en a b ::
      mkSegments extract_line_segment calcDist route_geometry city_cn city_en (b :: rest)
  | _ => []

/-- `BusSegmentProcessor.create_segments_from_route`.  Mirrors the source
control flow: fewer than two stops for the route, or an undefined/empty route
geometry, short-circuit to the empty list; otherwise project the stops, sort
the successful projections by projection distance, and emit one segment per
consecutive pair. -/
def create_segments_from_route (project_point_to_line : Point → List Point → Option ℚ)
    (extract_line_segment : List Point → ℚ → ℚ → Option (List Point))
    (calcDist : List Point → ℚ)
    (route_row : RouteRow) (stops_gdf : List StopRow) : List SegmentRec :=
  let route_stops := get_route_stops_ordered route_row.route_id stops_gdf
  if route_stops.length < 2 then []
  else
    match route_row.geometry with
    | none => []
    | some route_geometry =>
      if route_geometry.isEmpty then []
      else
        let stop_projections := projectStops project_point_to_line route_geometry route_stops
        let sorted_projections := List.insertionSort projLE stop_projections
        mkSegments extract_line_segment calcDist route_geometry
          route_row.city_cn route_row.city_en sorted_projections

/-- `BusSegmentProcessor.calculate_segment_distance`.  `planarLength` models
the Web-Mercator reprojection length in meters (the try block; `none` when
the reprojection library is unavailable or fails), `nativeLength` models
`segment_line.length` in native degrees (the fallback try block).  The source
returns `round(planar/1000, 3)`, else `round(native * 111.32, 3)`, else
`0.0`. -/
def calculate_segment_distance (planarLength : List Point → Option ℚ)
    (nativeLength : List Point → Option ℚ) (segment_line : List Point) : ℚ :=
  match planarLength segment_line with
  | some len => round3 (len / 1000)
  | none =>
    match nativeLength segment_line with
    | some len => round3 (len * (11132 / 100))
    | none => 0

section GroupFold

variable {κ σ γ : Type} [DecidableEq κ]

/-- One step of building a Python insertion-ordered dict keyed by `key`:
update the (unique) entry holding `key s` via `upd`, or append a fresh group
`init s` when the key is new.  Models `group = segment_groups[key]` followed
by the in-place mutation of `group`. -/
def insertWith (key : σ → κ) (init : σ → γ) (upd : σ → γ → γ) (s : σ) :
    List (κ × γ) → List (κ × γ)
  | [] => [(key s, init s)]
  | (k, g) :: rest =>
    if k = key s then (k, upd s g) :: rest
    else (k, g) :: insertWith key init upd s rest

/-- The grouping loop: fold `insertWith` over the input, starting from the
empty dict. -/
def groupFold (key : σ → κ) (init : σ → γ) (upd : σ → γ → γ) (l : List σ) : List (κ × γ) :=
  l.foldl (fun acc s => insertWith key init upd s acc) []

/-- First-match association-list lookup (Python dict indexing). -/
def assocFind (k : κ) : List (κ × γ) → Option γ
  | [] => none
  | kg :: rest => if kg.1 = k then some kg.2 else assocFind k rest

end GroupFold

/-- The mutable group state of `aggregate_segments` for one
`(start_stop_id, end_stop_id)` key, after the first member has arrived
(`first_segment` is then no longer `None`). -/
structure SegGroup where
  distances : List ℚ
  first_segment : SegmentRec
  cities : List String
  count : Nat
deriving DecidableEq, Repr

/-- The grouping key of `aggregate_segments`:
`(segment['s_stopid'], segment['e_stopid'])`. -/
def segKey (s : SegmentRec) : String × String := (s.s_stopid, s.e_stopid)

/-- The per-member mutation of a segment group: append the distance, add the
city to the set, bump the count; `first_segment` stays. -/
def segUpd (s : SegmentRec) (g : SegGroup) : SegGroup :=
  { distances := g.distances ++ [s.distance]
    first_segment := g.first_segment
    cities := addToSet g.cities s.city_cn
    count := g.count + 1 }

/-- A fresh segment group right after its first member was processed
(the `defaultdict` default followed by one loop body iteration). -/
def segInit (s : SegmentRec) : SegGroup :=
  { distances := [s.distance]
    first_segment := s
    cities := [s.city_cn]
    count := 1 }

/-- `BusSegmentProcessor.aggregate_segments`.  `listOfSet` models the Python
expression `list(group['cities'])` (see the file header). -/
def aggregate_segments (listOfSet : List String → List String)
    (segments_list : List SegmentRec) : List AggSegmentRec :=
  let segment_groups := groupFold segKey segInit segUpd segments_list
  segment_groups.map (fun kg =>
    let group := kg.2
    let avg_distance :=
      if group.distances.isEmpty then 0
      else round3 (group.distances.sum / group.distances.length)
    { toSegmentRec :=
        { group.first_segment with
          distance := avg_distance
          city_cn := String.intercalate "; " (listOfSet group.cities) }
      num := group.count })

/-- The mutable group state of `create_unique_stops` for one `stop_id`. -/
structure StopGroup where
  route_ids : List String
  first_stop : StopRow
  cities : List String
deriving DecidableEq, Repr

/-- The per-occurrence mutation of a stop group: `route_id` and the city are
recorded only when the occurrence's `route_id` is nonempty. -/
def stopUpd (s : StopRow) (g : StopGroup) : StopGroup :=
  if s.route_id = "" then g
  else
    { route_ids := addToSet g.route_ids s.route_id
      first_stop := g.first_stop
      cities := addToSet g.cities s.city_cn }

/-- A fresh stop group right after its first occurrence was processed. -/
def stopInit (s : StopRow) : StopGroup :=
  stopUpd s { route_ids := [], first_stop := s, cities := [] }

/-- The grouping loop of `create_unique_stops`: occurrences with an empty
`stop_id` are skipped (`continue`) before any group is touched. -/
def buildStopGroups (stops_gdf : List StopRow) : List (String × StopGroup) :=
  stops_gdf.foldl
    (fun acc s =>
      if s.stop_id = "" then acc
      else insertWith (fun t => t.stop_id) stopInit stopUpd s acc) []

/-- `BusSegmentProcessor.create_unique_stops`.  `listOfSet` models
`list(group['cities'])`. -/
def create_unique_stops (listOfSet : List String → List String)
    (stops_gdf : List StopRow) : List UniqueStopRec :=
  (buildStopGroups stops_gdf).map (fun kg =>
    let stop := kg.2.first_stop
    { stop_cn := stop.name_cn
      stop_en := stop.name_en
      stop_id := kg.1
      num := kg.2.route_ids.length
      city_cn := String.intercalate "; " (listOfSet kg.2.cities)
      city_en := stop.city_en
      geometry := stop.geometry })

/-- The list of successfully projected stops of a route (statement helper,
assembled from the source functions above). -/
def survivingOf (project_point_to_line : Point → List Point → Option ℚ)
    (route_row : RouteRow) (stops_gdf : List StopRow) : List Projection :=
  match route_row.geometry with
  | none => []
  | some g => projectStops project_point_to_line g (get_route_stops_ordered route_row.route_id stops_gdf)

/-- The surviving stops of a route in authoritative order (sorted by
projected arc-length position); statement helper. -/
def sortedSurviving (project_point_to_line : Point → List Point → Option ℚ)
    (route_row : RouteRow) (stops_gdf : List StopRow) : List Projection :=
  List.insertionSort projLE (survivingOf project_point_to_line route_row stops_gdf)

/-- A stop row with the `sequence` hint erased (statement helper for the
noninterference claim: two inputs agree "up to `sequence` and order" when
their `eraseSeq` images are permutations of each other). -/
structure StopCore where
  route_id : String
  stop_id : String
  name_cn : String
  name_en : String
  city_cn : String
  city_en : String
  geometry : Point
deriving DecidableEq, Repr

/-- Forget the `sequence` field of a stop row. -/
def eraseSeq (s : StopRow) : StopCore :=
  { route_id := s.route_id
    stop_id := s.stop_id
    name_cn := s.name_cn
    name_en := s.name_en
    city_cn := s.city_cn
    city_en := s.city_en
    geometry := s.geometry }

/-- The sequence-free content of a projection record. -/
def projCore (p : Projection) : StopCore × ℚ := (eraseSeq p.stop_data, p.projection_distance)

/-- Folding a group-update function over the members of a group, starting
from the state `o` (`none` while the key is still absent from the dict). -/
def combineGroup {σ γ : Type} (init : σ → γ) (upd : σ → γ → γ)
    (o : Option γ) (ms : List σ) : Option γ :=
  ms.foldl (fun o s => some (o.elim (init s) (upd s))) o

section GroupFoldLemmas

variable {κ σ γ : Type} [DecidableEq κ]
variable (key : σ → κ) (init : σ → γ) (upd : σ → γ → γ)

/-- Lookup after one dict-update step: the looked-up key is updated (or
freshly initialised), all others are unchanged. -/
theorem assocFind_insertWith (s : σ) (acc : List (κ × γ)) (k : κ) :
    assocFind k (insertWith key init upd s acc) =
      if k = key s then some ((assocFind k acc).elim (init s) (upd s))
      else assocFind k acc := by
  induction acc with
  | nil =>
    by_cases h : k = key s
    · simp [insertWith, assocFind, h]
    · simp [insertWith, assocFind, h, Ne.symm h]
  | cons kg rest ih =>
    obtain ⟨k2, g2⟩ := kg
    by_cases h2 : k2 = key s
    · rw [show insertWith key init upd s ((k2, g2) :: rest) = (k2, upd s g2) :: rest from by
        simp [insertWith, h2]]
      by_cases hk : k = key s
      · have hkk : k2 = k := h2.trans hk.symm
        simp [assocFind, hkk, hk]
      · have hkk : ¬ k2 = k := fun hh => hk (hh.symm.trans h2)
        simp [assocFind, hkk, hk]
    · rw [show insertWith key init upd s ((k2, g2) :: rest) =
          (k2, g2) :: insertWith key init upd s rest from by simp [insertWith, h2]]
      by_cases hkk : k2 = k
      · have hk : ¬ k = key s := fun hh => h2 (hkk.trans hh)
        simp [assocFind, hkk, hk]
      · simp [assocFind, hkk, ih]

/-- The key list after one dict-update step is the old key list with the new
key set-added. -/
theorem map_fst_insertWith (s : σ) (acc : List (κ × γ)) :
    (insertWith key init upd s acc).map Prod.fst = addToSet (acc.map Prod.fst) (key s) := by
  induction acc with
  | nil => simp [insertWith, addToSet]
  | cons kg rest ih =>
    obtain ⟨k2, g2⟩ := kg
    by_cases h : k2 = key s
    · simp [insertWith, h, addToSet]
    · by_cases hmem : key s ∈ rest.map Prod.fst <;>
        simp [insertWith, h, Ne.symm h, ih, addToSet, hmem]

theorem map_fst_foldl_insertWith (l : List σ) : ∀ acc : List (κ × γ),
    (l.foldl (fun acc s => insertWith key init upd s acc) acc).map Prod.fst =
      (l.map key).foldl addToSet (acc.map Prod.fst) := by
  induction l with
  | nil => intro acc; rfl
  | cons s l ih => intro acc; simp [ih, map_fst_insertWith]

/-- The dict built by the grouping loop has exactly the distinct input keys,
in first-encounter order. -/
theorem map_fst_groupFold (l : List σ) :
    (groupFold key init upd l).map Prod.fst = distinctList (l.map key) := by
  simpa [groupFold, distinctList] using map_fst_foldl_insertWith key init upd l []

theorem nodup_addToSet {α : Type} [DecidableEq α] {s : List α} (x : α) (h : s.Nodup) :
    (addToSet s x).Nodup := by
  unfold addToSet
  split
  · exact h
  · rename_i hx
    simp [List.nodup_append, h, hx]

theorem nodup_foldl_addToSet {α : Type} [DecidableEq α] (l : List α) :
    ∀ s : List α, s.Nodup → (l.foldl addToSet s).Nodup := by
  induction l with
  | nil => intro s h; exact h
  | cons x l ih => intro s h; exact ih _ (nodup_addToSet x h)

theorem nodup_distinctList {α : Type} [DecidableEq α] (l : List α) : (distinctList l).Nodup :=
  nodup_foldl_addToSet l [] List.nodup_nil

theorem mem_addToSet {α : Type} [DecidableEq α] {s : List α} {x y : α} :
    x ∈ addToSet s y ↔ x ∈ s ∨ x = y := by
  unfold addToSet
  split
  · rename_i hy
    constructor
    · exact Or.inl
    · rintro (hx | rfl)
      · exact hx
      · exact hy
  · simp

theorem mem_foldl_addToSet {α : Type} [DecidableEq α] (l : List α) :
    ∀ (s : List α) (x : α), x ∈ l.foldl addToSet s ↔ x ∈ s ∨ x ∈ l := by
  induction l with
  | nil => intro s x; simp
  | cons y l ih =>
    intro s x
    rw [List.foldl_cons, ih, mem_addToSet]
    simp [or_assoc]

theorem mem_distinctList {α : Type} [DecidableEq α] {l : List α} {x : α} :
    x ∈ distinctList l ↔ x ∈ l := by
  rw [distinctList, mem_foldl_addToSet]
  simp

/-- In a dict with distinct keys, membership determines the lookup. -/
theorem assocFind_eq_some_of_mem {acc : List (κ × γ)} {k : κ} {g : γ}
    (hnd : (acc.map Prod.fst).Nodup) (h : (k, g) ∈ acc) : assocFind k acc = some g := by
  induction acc with
  | nil => simp at h
  | cons kg rest ih =>
    rcases List.mem_cons.mp h with heq | hmem
    · rw [← heq]
      simp [assocFind]
    · have hk : k ∈ rest.map Prod.fst := List.mem_map.mpr ⟨(k, g), hmem, rfl⟩
      have hne : kg.1 ≠ k := by
        intro hcontr
        exact (List.nodup_cons.mp hnd).1 (hcontr ▸ hk)
      simp only [assocFind, if_neg hne]
      exact ih (List.nodup_cons.mp hnd).2 hmem

/-- Lookup in the dict built by the grouping loop: the group of key `k` is
the fold of the update function over exactly the input members with key `k`,
in input order. -/
theorem assocFind_foldl_insertWith (l : List σ) : ∀ (acc : List (κ × γ)) (k : κ),
    assocFind k (l.foldl (fun acc s => insertWith key init upd s acc) acc) =
      combineGroup init upd (assocFind k acc) (l.filter (fun s => key s = k)) := by
  induction l with
  | nil => intro acc k; rfl
  | cons s l ih =>
    intro acc k
    rw [List.foldl_cons, ih, assocFind_insertWith]
    by_cases h : key s = k
    · rw [if_pos h.symm]
      simp [List.filter_cons, h, combineGroup]
    · rw [if_neg (Ne.symm h)]
      simp [List.filter_cons, h]

theorem assocFind_groupFold (l : List σ) (k : κ) :
    assocFind k (groupFold key init upd l) =
      combineGroup init upd none (l.filter (fun s => key s = k)) := by
  simpa [groupFold, assocFind] using assocFind_foldl_insertWith key init upd l [] k

theorem combineGroup_some (g0 : γ) (ms : List σ) :
    combineGroup init upd (some g0) ms = some (ms.foldl (fun g s => upd s g) g0) := by
  induction ms generalizing g0 with
  | nil => rfl
  | cons s ms ih => simp [combineGroup, List.foldl_cons] at ih ⊢; exact ih (upd s g0)

/-- Every entry of the dict built by the grouping loop is the fold of the
update function over the input members carrying its key; that member list is
nonempty, starts the group via `init`, and its head carries the key. -/
theorem groupFold_mem_spec (l : List σ) {k : κ} {g : γ}
    (h : (k, g) ∈ groupFold key init upd l) :
    ∃ m tail, l.filter (fun s => key s = k) = m :: tail ∧ key m = k ∧
      g = tail.foldl (fun g s => upd s g) (init m) := by
  have hnd : ((groupFold key init upd l).map Prod.fst).Nodup := by
    rw [map_fst_groupFold]
    exact nodup_distinctList _
  have hf := assocFind_eq_some_of_mem hnd h
  rw [assocFind_groupFold] at hf
  cases hm : l.filter (fun s => key s = k) with
  | nil => rw [hm] at hf; simp [combineGroup] at hf
  | cons m tail =>
    rw [hm, show combineGroup init upd none (m :: tail) =
          combineGroup init upd (some (init m)) tail from rfl,
        combineGroup_some] at hf
    refine ⟨m, tail, rfl, ?_, (Option.some.injEq _ _ ▸ hf).symm⟩
    have hmmem : m ∈ l.filter (fun s => key s = k) := by rw [hm]; exact List.mem_cons_self m tail
    exact of_decide_eq_true (List.mem_filter.mp hmmem).2

end GroupFoldLemmas

/-- Folding a guarded step over a list is folding the unguarded step over the
filtered list. -/
theorem foldl_filter_eq {α β : Type} (p : α → Prop) [DecidablePred p] (f : β → α → β) :
    ∀ (l : List α) (b : β),
      (l.filter (fun a => p a)).foldl f b =
        l.foldl (fun acc a => if p a then f acc a else acc) b := by
  intro l
  induction l with
  | nil => intro b; rfl
  | cons a l ih => intro b; by_cases h : p a <;> simp [h, ih]

/-- The grouping loop of `create_unique_stops` is the generic grouping loop
run on the occurrences with a nonempty `stop_id`. -/
theorem buildStopGroups_eq (l : List StopRow) :
    buildStopGroups l =
      groupFold (fun t => t.stop_id) stopInit stopUpd (l.filter (fun s => ¬ s.stop_id = "")) := by
  rw [groupFold, foldl_filter_eq]
  unfold buildStopGroups
  congr 1
  funext acc s
  by_cases h : s.stop_id = "" <;> simp [h]

theorem segFold_count (ms : List SegmentRec) : ∀ g0 : SegGroup,
    (ms.foldl (fun g s => segUpd s g) g0).count = g0.count + ms.length := by
  induction ms with
  | nil => intro g0; simp
  | cons s ms ih => intro g0; rw [List.foldl_cons, ih]; simp [segUpd]; omega

theorem segFold_first (ms : List SegmentRec) : ∀ g0 : SegGroup,
    (ms.foldl (fun g s => segUpd s g) g0).first_segment = g0.first_segment := by
  induction ms with
  | nil => intro g0; rfl
  | cons s ms ih => intro g0; rw [List.foldl_cons, ih]; rfl

theorem segFold_distances (ms : List SegmentRec) : ∀ g0 : SegGroup,
    (ms.foldl (fun g s => segUpd s g) g0).distances = g0.distances ++ ms.map (·.distance) := by
  induction ms with
  | nil => intro g0; simp
  | cons s ms ih => intro g0; rw [List.foldl_cons, ih]; simp [segUpd]

theorem segFold_cities (ms : List SegmentRec) : ∀ g0 : SegGroup,
    (ms.foldl (fun g s => segUpd s g) g0).cities =
      (ms.map (·.city_cn)).foldl addToSet g0.cities := by
  induction ms with
  | nil => intro g0; rfl
  | cons s ms ih => intro g0; rw [List.foldl_cons, ih]; rfl

/-- Content of one group of `aggregate_segments`: given an entry of the group
dict, its members are exactly the input segments with its key (in input
order); `first_segment` is the first of them, `count` the group size,
`distances` their distances, `cities` the distinct city tags in
first-encounter order. -/
theorem segGroup_spec (l : List SegmentRec) {k : String × String} {g : SegGroup}
    (h : (k, g) ∈ groupFold segKey segInit segUpd l) :
    ∃ m tail, l.filter (fun s => segKey s = k) = m :: tail ∧ segKey m = k ∧
      g.first_segment = m ∧
      g.count = (m :: tail).length ∧
      g.distances = (m :: tail).map (·.distance) ∧
      g.cities = distinctList ((m :: tail).map (·.city_cn)) := by
  obtain ⟨m, tail, hfil, hkey, hg⟩ := groupFold_mem_spec segKey segInit segUpd l h
  subst hg
  refine ⟨m, tail, hfil, hkey, ?_, ?_, ?_, ?_⟩
  · rw [segFold_first]; rfl
  · rw [segFold_count]; simp [segInit]; omega
  · rw [segFold_distances]; simp [segInit]
  · rw [segFold_cities]; simp [segInit, distinctList, addToSet]

theorem stopFold_first (ms : List StopRow) : ∀ g0 : StopGroup,
    (ms.foldl (fun g s => stopUpd s g) g0).first_stop = g0.first_stop := by
  induction ms with
  | nil => intro g0; rfl
  | cons s ms ih =>
    intro g0
    rw [List.foldl_cons, ih]
    unfold stopUpd
    split <;> rfl

theorem stopFold_route_ids (ms : List StopRow) : ∀ g0 : StopGroup,
    (ms.foldl (fun g s => stopUpd s g) g0).route_ids =
      ((ms.filter (fun s => ¬ s.route_id = "")).map (·.route_id)).foldl addToSet g0.route_ids := by
  induction ms with
  | nil => intro g0; rfl
  | cons s ms ih =>
    intro g0
    rw [List.foldl_cons, ih]
    by_cases h : s.route_id = "" <;> simp [stopUpd, h]

theorem stopFold_cities (ms : List StopRow) : ∀ g0 : StopGroup,
    (ms.foldl (fun g s => stopUpd s g) g0).cities =
      ((ms.filter (fun s => ¬ s.route_id = "")).map (·.city_cn)).foldl addToSet g0.cities := by
  induction ms with
  | nil => intro g0; rfl
  | cons s ms ih =>
    intro g0
    rw [List.foldl_cons, ih]
    by_cases h : s.route_id = "" <;> simp [stopUpd, h]

/-- Content of one group of `create_unique_stops`: members are the
occurrences (with nonempty `stop_id`) carrying its key; `first_stop` is the
first of them; `route_ids` and `cities` collect the distinct route ids and
city tags of the members with a nonempty `route_id`. -/
theorem stopGroup_spec (l : List StopRow) {k : String} {g : StopGroup}
    (h : (k, g) ∈ buildStopGroups l) :
    ∃ m tail,
      (l.filter (fun s => ¬ s.stop_id = "")).filter (fun s => s.stop_id = k) = m :: tail ∧
      m.stop_id = k ∧
      g.first_stop = m ∧
      g.route_ids = distinctList (((m :: tail).filter (fun s => ¬ s.route_id = "")).map (·.route_id)) ∧
      g.cities = distinctList (((m :: tail).filter (fun s => ¬ s.route_id = "")).map (·.city_cn)) := by
  rw [buildStopGroups_eq] at h
  obtain ⟨m, tail, hfil, hkey, hg⟩ :=
    groupFold_mem_spec (fun t => t.stop_id) stopInit stopUpd _ h
  subst hg
  refine ⟨m, tail, hfil, hkey, ?_, ?_, ?_⟩
  · rw [stopFold_first]
    unfold stopInit stopUpd
    split <;> rfl
  · rw [show stopInit m = stopUpd m ⟨[], m, []⟩ from rfl, show (stopUpd m ⟨[], m, []⟩ =
      (List.foldl (fun g s => stopUpd s g) ⟨[], m, []⟩ [m])) from rfl, ← List.foldl_append]
    rw [stopFold_route_ids]
    simp [distinctList]
  · rw [show stopInit m = stopUpd m ⟨[], m, []⟩ from rfl, show (stopUpd m ⟨[], m, []⟩ =
      (List.foldl (fun g s => stopUpd s g) ⟨[], m, []⟩ [m])) from rfl, ← List.foldl_append]
    rw [stopFold_cities]
    simp [distinctList]

theorem sumCounts_insertWith (s : SegmentRec) (acc : List ((String × String) × SegGroup)) :
    ((insertWith segKey segInit segUpd s acc).map (fun kg => kg.2.count)).sum =
      ((acc.map (fun kg => kg.2.count)).sum) + 1 := by
  induction acc with
  | nil => simp [insertWith, segInit]
  | cons kg rest ih =>
    obtain ⟨k2, g2⟩ := kg
    by_cases h : k2 = segKey s
    · simp [insertWith, h, segUpd]
      omega
    · simp [insertWith, h, ih]
      omega

theorem sumCounts_foldl (l : List SegmentRec) :
    ∀ acc : List ((String × String) × SegGroup),
      ((l.foldl (fun acc s => insertWith segKey segInit segUpd s acc) acc).map
        (fun kg => kg.2.count)).sum =
      (acc.map (fun kg => kg.2.count)).sum + l.length := by
  induction l with
  | nil => intro acc; simp
  | cons s l ih =>
    intro acc
    rw [List.foldl_cons, ih, sumCounts_insertWith, List.length_cons]
    omega

/-- Per-record characterisation of `aggregate_segments` output: each output
record describes the nonempty group of input segments sharing its
(start stop id, end stop id) key, with `num` the group size, `distance` the
rounded mean of member distances, and `city_cn` the joined enumeration of the
distinct member city tags. -/
theorem aggregate_mem_spec (listOfSet : List String → List String) (l : List SegmentRec)
    {r : AggSegmentRec} (h : r ∈ aggregate_segments listOfSet l) :
    ∃ m tail,
      l.filter (fun s => s.s_stopid = r.s_stopid ∧ s.e_stopid = r.e_stopid) = m :: tail ∧
      r.s_stopid = m.s_stopid ∧ r.e_stopid = m.e_stopid ∧
      r.num = (m :: tail).length ∧
      r.distance = round3 (((m :: tail).map (·.distance)).sum / (m :: tail).length) ∧
      r.city_cn = String.intercalate "; " (listOfSet (distinctList ((m :: tail).map (·.city_cn)))) := by
  rw [aggregate_segments] at h
  obtain ⟨kg, hkg, hr⟩ := List.mem_map.mp h
  obtain ⟨k, g⟩ := kg
  obtain ⟨m, tail, hfil, hkey, hfirst, hcount, hdist, hcities⟩ := segGroup_spec l hkg
  have hsid : r.s_stopid = m.s_stopid := by rw [← hr]; simp [hfirst]
  have heid : r.e_stopid = m.e_stopid := by rw [← hr]; simp [hfirst]
  refine ⟨m, tail, ?_, hsid, heid, ?_, ?_, ?_⟩
  · rw [← hfil]
    apply List.filter_congr
    intro x hx
    rw [decide_eq_decide, hsid, heid, ← hkey]
    unfold segKey
    simp [Prod.ext_iff]
  · rw [← hr]
    simpa using hcount
  · rw [← hr]
    simp only [hdist]
    have hne : ((m :: tail).map (fun s => s.distance)).isEmpty = false := by simp
    simp [hne]
  · rw [← hr]
    simp [hcities]

/-- Claim C1 helper is below; C2: aggregation conserves the input count:
the usage counts (`num`) of the aggregated records sum to the number of
input segment records. -/
theorem claim_C2 (listOfSet : List String → List String) (segments_list : List SegmentRec) :
    ((aggregate_segments listOfSet segments_list).map (fun r => r.num)).sum =
      segments_list.length := by
  have hsum := sumCounts_foldl segments_list []
  simp only [List.map_nil, List.sum_nil, Nat.zero_add] at hsum
  simpa [aggregate_segments, groupFold, Function.comp] using hsum

/-- Claim C3: for every group of input segments sharing the same
(start stop id, end stop id) key, the aggregated record's usage count `num`
is the group size and its `distance` is the mean of the group's distances
rounded to 3 decimal places. -/
theorem claim_C3 (listOfSet : List String → List String) (segments_list : List SegmentRec)
    (r : AggSegmentRec) (h : r ∈ aggregate_segments listOfSet segments_list) :
    r.num = (segments_list.filter
        (fun s => s.s_stopid = r.s_stopid ∧ s.e_stopid = r.e_stopid)).length ∧
    segments_list.filter (fun s => s.s_stopid = r.s_stopid ∧ s.e_stopid = r.e_stopid) ≠ [] ∧
    r.distance = round3
      ((((segments_list.filter
          (fun s => s.s_stopid = r.s_stopid ∧ s.e_stopid = r.e_stopid)).map (·.distance)).sum) /
        ((segments_list.filter
          (fun s => s.s_stopid = r.s_stopid ∧ s.e_stopid = r.e_stopid)).length)) := by
  obtain ⟨m, tail, hfil, _, _, hnum, hdist, _⟩ := aggregate_mem_spec listOfSet segments_list h
  rw [hfil]
  exact ⟨hnum, by simp, hdist⟩

/-- A segment record with the given distance between stops "X" and "Y"
(concrete input for the C3 witness, realising the spec's example
distances [1.200, 1.400, 1.300]). -/
def c3seg (d : ℚ) : SegmentRec :=
  { s_stop_cn := "s", s_stop_en := "s", s_stopid := "X"
    e_stop_cn := "e", e_stop_en := "e", e_stopid := "Y"
    distance := d, city_cn := "C", city_en := "C", geometry := [] }

/-- The aggregated record produced from the C3 witness input. -/
def c3rec : AggSegmentRec :=
  { toSegmentRec := { c3seg (12/10) with distance := 13/10, city_cn := "C" }, num := 3 }

/-- Witness for C3: three segments with key (X, Y) and distances
1.2, 1.4, 1.3 aggregate to usage count 3 and distance 1.300. -/
theorem claim_C3_witness :
    c3rec ∈ aggregate_segments id [c3seg (12/10), c3seg (14/10), c3seg (13/10)] ∧
    c3rec.num = 3 ∧ c3rec.distance = 13/10 := by
  have hagg : aggregate_segments id [c3seg (12/10), c3seg (14/10), c3seg (13/10)] = [c3rec] := by
    simp [aggregate_segments, groupFold, insertWith, segKey, segInit, segUpd, c3seg, c3rec,
      addToSet]
    refine ⟨?_, ?_⟩
    · norm_num [round3, round_eq]
    · decide
  have hmem : c3rec ∈ aggregate_segments id [c3seg (12/10), c3seg (14/10), c3seg (13/10)] := by
    rw [hagg]
    exact List.mem_singleton.mpr rfl
  have h := claim_C3 id [c3seg (12/10), c3seg (14/10), c3seg (13/10)] c3rec hmem
  refine ⟨hmem, ?_, ?_⟩
  · rw [h.1]
    simp [c3seg, c3rec]
  · rw [h.2.2]
    simp [c3seg, c3rec]
    norm_num [round3, round_eq]

/-- First concrete input segment for C6: directed edge A→B. -/
def c6segAB : SegmentRec :=
  { s_stop_cn := "a", s_stop_en := "a", s_stopid := "A"
    e_stop_cn := "b", e_stop_en := "b", e_stopid := "B"
    distance := 1, city_cn := "C", city_en := "C", geometry := [] }

/-- Second concrete input segment for C6: the reversed edge B→A. -/
def c6segBA : SegmentRec :=
  { s_stop_cn := "b", s_stop_en := "b", s_stopid := "B"
    e_stop_cn := "a", e_stop_en := "a", e_stopid := "A"
    distance := 1, city_cn := "C", city_en := "C", geometry := [] }

/-- Claim C6: the aggregation key is the ordered (directional) pair of stop
ids: the output key list is exactly the distinct ordered keys of the input in
first-encounter order; in particular an input holding one A→B segment and
one B→A segment yields two separate records, each with usage count 1. -/
theorem claim_C6 (listOfSet : List String → List String) (segments_list : List SegmentRec) :
    ((aggregate_segments listOfSet segments_list).map (fun r => (r.s_stopid, r.e_stopid)) =
      distinctList (segments_list.map segKey)) ∧
    ((aggregate_segments id [c6segAB, c6segBA]).map (fun r => (r.s_stopid, r.e_stopid, r.num)) =
      [("A", "B", 1), ("B", "A", 1)]) := by
  constructor
  · calc (aggregate_segments listOfSet segments_list).map (fun r => (r.s_stopid, r.e_stopid))
        = (groupFold segKey segInit segUpd segments_list).map Prod.fst := by
          rw [aggregate_segments, List.map_map]
          apply List.map_congr_left
          intro kg hkg
          obtain ⟨m, tail, _, hkey, hfirst, _, _, _⟩ := segGroup_spec segments_list hkg
          show (kg.2.first_segment.s_stopid, kg.2.first_segment.e_stopid) = kg.1
          rw [hfirst, ← hkey]
          rfl
      _ = distinctList (segments_list.map segKey) := map_fst_groupFold ..
  · decide

/-- Per-record characterisation of `create_unique_stops` output. -/
theorem unique_stops_mem_spec (listOfSet : List String → List String) (stops_gdf : List StopRow)
    {r : UniqueStopRec} (h : r ∈ create_unique_stops listOfSet stops_gdf) :
    ¬ r.stop_id = "" ∧
    r.num = (distinctList (((stops_gdf.filter (fun s => s.stop_id = r.stop_id)).filter
      (fun s => ¬ s.route_id = "")).map (fun s => s.route_id))).length ∧
    ∃ cs, cs.Perm (listOfSet (distinctList (((stops_gdf.filter
        (fun s => s.stop_id = r.stop_id)).filter
        (fun s => ¬ s.route_id = "")).map (fun s => s.city_cn)))) ∧
      r.city_cn = String.intercalate "; " cs := by
  rw [create_unique_stops] at h
  obtain ⟨kg, hkg, hr⟩ := List.mem_map.mp h
  obtain ⟨k, g⟩ := kg
  obtain ⟨m, tail, hfil, hkey, hfirst, hrids, hcities⟩ := stopGroup_spec stops_gdf hkg
  have hrid : r.stop_id = k := by rw [← hr]
  have hmmem : m ∈ (stops_gdf.filter (fun s => ¬ s.stop_id = "")).filter
      (fun s => s.stop_id = k) := by
    rw [hfil]
    exact List.mem_cons_self m tail
  have hknz : ¬ k = "" := by
    have := (List.mem_filter.mp (List.mem_filter.mp hmmem).1).2
    rw [← hkey]
    simpa using this
  have hswap : (stops_gdf.filter (fun s => ¬ s.stop_id = "")).filter
      (fun s => s.stop_id = k) = stops_gdf.filter (fun s => s.stop_id = k) := by
    rw [List.filter_filter]
    apply List.filter_congr
    intro x hx
    by_cases hxk : x.stop_id = k
    · simp [hxk, hknz]
    · simp [hxk]
  rw [hswap] at hfil
  rw [hrid]
  refine ⟨hknz, ?_, ?_⟩
  · rw [← hr]
    show g.route_ids.length = _
    rw [hrids, hfil]
  · refine ⟨listOfSet g.cities, ?_, ?_⟩
    · rw [hcities, hfil]
    · rw [← hr]

/-- Claim C9: `create_unique_stops` groups occurrences by `stop_id`,
emitting one record per distinct nonempty `stop_id` in first-encounter order
(occurrences with an empty `stop_id` are neither counted nor emitted), and
each record's `num` is the number of distinct (nonempty) route ids
referencing that `stop_id` within its group, not the raw occurrence count. -/
theorem claim_C9 (listOfSet : List String → List String) (stops_gdf : List StopRow) :
    ((create_unique_stops listOfSet stops_gdf).map (fun r => r.stop_id) =
      distinctList ((stops_gdf.filter (fun s => ¬ s.stop_id = "")).map (fun s => s.stop_id))) ∧
    ∀ r ∈ create_unique_stops listOfSet stops_gdf,
      ¬ r.stop_id = "" ∧
      r.num = (distinctList (((stops_gdf.filter (fun s => s.stop_id = r.stop_id)).filter
        (fun s => ¬ s.route_id = "")).map (fun s => s.route_id))).length := by
  constructor
  · calc (create_unique_stops listOfSet stops_gdf).map (fun r => r.stop_id)
        = (buildStopGroups stops_gdf).map Prod.fst := by
          rw [create_unique_stops, List.map_map]
          exact List.map_congr_left (fun kg _ => rfl)
      _ = distinctList ((stops_gdf.filter (fun s => ¬ s.stop_id = "")).map
            (fun s => s.stop_id)) := by
          rw [buildStopGroups_eq, map_fst_groupFold]
  · intro r hr
    exact ⟨(unique_stops_mem_spec listOfSet stops_gdf hr).1,
      (unique_stops_mem_spec listOfSet stops_gdf hr).2.1⟩

/-- A concrete stop occurrence (helper for witnesses/counterexamples). -/
def mkStopOcc (sid rid city : String) : StopRow :=
  { route_id := rid, stop_id := sid, name_cn := "n", name_en := "n"
    city_cn := city, city_en := "C", sequence := 0, geometry := ⟨0, 0⟩ }

/-- Concrete occurrence list for the C9 witness: stop "S" referenced by
routes r1, r2, r1 (a repeat), plus one occurrence with an empty stop id. -/
def c9stops : List StopRow :=
  [mkStopOcc "S" "r1" "C", mkStopOcc "S" "r2" "C", mkStopOcc "S" "r1" "C",
   mkStopOcc "" "r3" "C"]

/-- The single deduplicated record for `c9stops`. -/
def c9rec : UniqueStopRec :=
  { stop_cn := "n", stop_en := "n", stop_id := "S", num := 2
    city_cn := "C", city_en := "C", geometry := ⟨0, 0⟩ }

/-- Witness for C9: the empty-id occurrence is dropped, and stop "S" gets
`num = 2` (distinct routes r1, r2), not 3 (raw occurrences). -/
theorem claim_C9_witness :
    c9rec ∈ create_unique_stops id c9stops ∧
    ¬ c9rec.stop_id = "" ∧
    c9rec.num = (distinctList (((c9stops.filter (fun s => s.stop_id = c9rec.stop_id)).filter
      (fun s => ¬ s.route_id = "")).map (fun s => s.route_id))).length ∧
    ((create_unique_stops id c9stops).map (fun r => r.stop_id) =
      distinctList ((c9stops.filter (fun s => ¬ s.stop_id = "")).map (fun s => s.stop_id))) := by
  have hmem : c9rec ∈ create_unique_stops id c9stops := by decide
  have h := claim_C9 id c9stops
  exact ⟨hmem, (h.2 c9rec hmem).1, (h.2 c9rec hmem).2, h.1⟩

/-- C4 concrete aggregation input: two segments with the same key whose city
tags are "A" then "B" in encounter order. -/
def c4segA : SegmentRec :=
  { s_stop_cn := "s", s_stop_en := "s", s_stopid := "X"
    e_stop_cn := "e", e_stop_en := "e", e_stopid := "Y"
    distance := 1, city_cn := "A", city_en := "C", geometry := [] }

/-- Second C4 input segment (same key, city tag "B"). -/
def c4segB : SegmentRec :=
  { s_stop_cn := "s", s_stop_en := "s", s_stopid := "X"
    e_stop_cn := "e", e_stop_en := "e", e_stopid := "Y"
    distance := 1, city_cn := "B", city_en := "C", geometry := [] }

/-- C4 concrete dedup input: stop "S" seen first with an empty route id and
city "C1", then with route r1 and city "C2". -/
def c4stops : List StopRow := [mkStopOcc "S" "" "C1", mkStopOcc "S" "r1" "C2"]

/-- Counterexample to C4 as stated.  (a) `list(set)` gives no order
guarantee: `List.reverse` is an admissible enumeration of the set
\x7b"A", "B"\x7d (it is a permutation of the insertion-ordered elements), yet
under it `aggregate_segments` emits the combined tag "B; A", while the
distinct tags in first-encounter order are ["A", "B"], i.e. the claimed
display string is "A; B".  (b) In `create_unique_stops` the city tag of a
member with an empty route id is never collected: for `c4stops` the code
emits "C2" even under the identity enumeration, while the distinct member
tags in encounter order are ["C1", "C2"]. -/
theorem claim_C4_counterexample :
    ((List.reverse ["A", "B"]).Perm ["A", "B"]) ∧
    ((aggregate_segments List.reverse [c4segA, c4segB]).map (fun r => r.city_cn) = ["B; A"]) ∧
    distinctList ([c4segA, c4segB].map (fun s => s.city_cn)) = ["A", "B"] ∧
    "; ".intercalate ["A", "B"] = "A; B" ∧
    ¬ "B; A" = "A; B" ∧
    ((create_unique_stops id c4stops).map (fun r => r.city_cn) = ["C2"]) ∧
    distinctList (c4stops.map (fun s => s.city_cn)) = ["C1", "C2"] ∧
    ¬ "C2" = "C1; C2" := by
  refine ⟨by decide, by decide, by decide, by decide, by decide, by decide, by decide, by decide⟩

/-- Amended C4: for every admissible enumeration of the Python set (any
function returning the set's elements in some order), the combined city tag
of an output record of `aggregate_segments` is the distinct city tags of the
group's members joined with "; " in SOME order (a permutation of the
first-encounter order, which the code does not guarantee to preserve); for
`create_unique_stops` the same holds with only the members carrying a
nonempty route id contributing their city tag. -/
theorem claim_C4_amended (listOfSet : List String → List String)
    (hadm : ∀ cs : List String, (listOfSet cs).Perm cs) :
    (∀ (l : List SegmentRec) (r : AggSegmentRec), r ∈ aggregate_segments listOfSet l →
      ∃ cs, cs.Perm (distinctList ((l.filter
          (fun s => s.s_stopid = r.s_stopid ∧ s.e_stopid = r.e_stopid)).map
          (fun s => s.city_cn))) ∧
        r.city_cn = String.intercalate "; " cs) ∧
    (∀ (stops_gdf : List StopRow) (r : UniqueStopRec),
      r ∈ create_unique_stops listOfSet stops_gdf →
      ∃ cs, cs.Perm (distinctList (((stops_gdf.filter
          (fun s => s.stop_id = r.stop_id)).filter
          (fun s => ¬ s.route_id = "")).map (fun s => s.city_cn))) ∧
        r.city_cn = String.intercalate "; " cs) := by
  constructor
  · intro l r h
    obtain ⟨m, tail, hfil, _, _, _, _, hcity⟩ := aggregate_mem_spec listOfSet l h
    refine ⟨listOfSet (distinctList ((m :: tail).map (fun s => s.city_cn))), ?_, hcity⟩
    rw [hfil]
    exact hadm _
  · intro stops_gdf r h
    obtain ⟨_, _, cs, hperm, hjoin⟩ := unique_stops_mem_spec listOfSet stops_gdf h
    exact ⟨cs, hperm.trans (hadm _), hjoin⟩

/-- The aggregated record for the C4 witness input under the identity
enumeration. -/
def c4recAB : AggSegmentRec :=
  { toSegmentRec := { c4segA with distance := 1, city_cn := "A; B" }, num := 2 }

/-- The deduplicated record for `c4stops` under the identity enumeration. -/
def c4stoprec : UniqueStopRec :=
  { stop_cn := "n", stop_en := "n", stop_id := "S", num := 1
    city_cn := "C2", city_en := "C", geometry := ⟨0, 0⟩ }

/-- Witness for the amended C4, with the identity enumeration (admissible:
`id cs` is a permutation of `cs`) at concrete inputs. -/
theorem claim_C4_amended_witness :
    (∃ cs : List String, cs.Perm (distinctList (([c4segA, c4segB].filter
        (fun s => s.s_stopid = c4recAB.s_stopid ∧ s.e_stopid = c4recAB.e_stopid)).map
        (fun s => s.city_cn))) ∧
      c4recAB.city_cn = String.intercalate "; " cs) ∧
    (∃ cs : List String, cs.Perm (distinctList (((c4stops.filter
        (fun s => s.stop_id = c4stoprec.stop_id)).filter
        (fun s => ¬ s.route_id = "")).map (fun s => s.city_cn))) ∧
      c4stoprec.city_cn = String.intercalate "; " cs) := by
  have hagg : aggregate_segments id [c4segA, c4segB] = [c4recAB] := by
    simp [aggregate_segments, groupFold, insertWith, segKey, segInit, segUpd, c4segA, c4segB,
      c4recAB, addToSet]
    refine ⟨?_, ?_⟩
    · norm_num [round3, round_eq]
    · decide
  have hmemA : c4recAB ∈ aggregate_segments id [c4segA, c4segB] := by
    rw [hagg]
    exact List.mem_singleton.mpr rfl
  have hmemS : c4stoprec ∈ create_unique_stops id c4stops := by decide
  exact ⟨(claim_C4_amended id (fun _ => List.Perm.refl _)).1 [c4segA, c4segB] c4recAB hmemA,
    (claim_C4_amended id (fun _ => List.Perm.refl _)).2 c4stops c4stoprec hmemS⟩

theorem projectStops_length_of_all_some (ppl : Point → List Point → Option ℚ)
    (g : List Point) (l : List StopRow)
    (h : ∀ s ∈ l, (ppl s.geometry g).isSome) :
    (projectStops ppl g l).length = l.length := by
  induction l with
  | nil => rfl
  | cons a l ih =>
    have ha := h a (List.mem_cons_self a l)
    cases heq : ppl a.geometry g with
    | none => rw [heq] at ha; simp at ha
    | some d =>
      have hrest := ih (fun s hs => h s (List.mem_cons_of_mem a hs))
      simp only [projectStops] at hrest
      simp [projectStops, List.filterMap_cons, heq, hrest]

theorem mkSegments_length (ext : List Point → ℚ → ℚ → Option (List Point))
    (cd : List Point → ℚ) (g : List Point) (cc ce : String) :
    ∀ l : List Projection, (mkSegments ext cd g cc ce l).length = l.length - 1
  | [] => rfl
  | [_] => rfl
  | a :: b :: rest => by
    have ih := mkSegments_length ext cd g cc ce (b :: rest)
    simp only [mkSegments, List.length_cons] at ih ⊢
    omega

/-- When the three precondition checks pass, `create_segments_from_route`
is the consecutive-pair loop over the sorted surviving projections. -/
theorem create_segments_eq (ppl : Point → List Point → Option ℚ)
    (ext : List Point → ℚ → ℚ → Option (List Point)) (cd : List Point → ℚ)
    (route_row : RouteRow) (stops_gdf : List StopRow) (g : List Point)
    (hg : route_row.geometry = some g) (hne : g.isEmpty = false)
    (hlen : ¬ (get_route_stops_ordered route_row.route_id stops_gdf).length < 2) :
    create_segments_from_route ppl ext cd route_row stops_gdf =
      mkSegments ext cd g route_row.city_cn route_row.city_en
        (sortedSurviving ppl route_row stops_gdf) := by
  unfold create_segments_from_route
  rw [if_neg hlen, hg]
  simp [hne, sortedSurviving, survivingOf, hg]

/-- Claim C1: with all N associated stops projecting successfully and N ≥ 2
(and a defined, nonempty route geometry), the segmenter returns exactly N−1
records; with fewer than 2 stops, or an undefined/empty geometry, it returns
the empty list. -/
theorem claim_C1 (ppl : Point → List Point → Option ℚ)
    (ext : List Point → ℚ → ℚ → Option (List Point)) (cd : List Point → ℚ)
    (route_row : RouteRow) (stops_gdf : List StopRow) :
    (∀ g : List Point, route_row.geometry = some g → g.isEmpty = false →
      (∀ s ∈ get_route_stops_ordered route_row.route_id stops_gdf, (ppl s.geometry g).isSome) →
      2 ≤ (get_route_stops_ordered route_row.route_id stops_gdf).length →
      (create_segments_from_route ppl ext cd route_row stops_gdf).length =
        (get_route_stops_ordered route_row.route_id stops_gdf).length - 1) ∧
    ((get_route_stops_ordered route_row.route_id stops_gdf).length < 2 →
      create_segments_from_route ppl ext cd route_row stops_gdf = []) ∧
    ((route_row.geometry = none ∨ route_row.geometry = some []) →
      create_segments_from_route ppl ext cd route_row stops_gdf = []) := by
  refine ⟨?_, ?_, ?_⟩
  · intro g hg hne hall hlen
    rw [create_segments_eq ppl ext cd route_row stops_gdf g hg hne (by omega),
      mkSegments_length, sortedSurviving, List.length_insertionSort]
    unfold survivingOf
    rw [hg, projectStops_length_of_all_some ppl g _ hall]
  · intro hlt
    unfold create_segments_from_route
    rw [if_pos hlt]
  · intro hcase
    by_cases hlt : (get_route_stops_ordered route_row.route_id stops_gdf).length < 2
    · unfold create_segments_from_route
      rw [if_pos hlt]
    · unfold create_segments_from_route
      rw [if_neg hlt]
      rcases hcase with hnone | hempty
      · rw [hnone]
      · rw [hempty]
        simp

/-- Concrete projector for witnesses: project to the longitude coordinate
(always succeeds). -/
def cw1ppl : Point → List Point → Option ℚ := fun p _ => some p.lon

/-- Concrete slicer for witnesses: always fails (forces the fallback). -/
def cw1ext : List Point → ℚ → ℚ → Option (List Point) := fun _ _ _ => none

/-- Concrete distance function for witnesses. -/
def cw1cd : List Point → ℚ := fun _ => 0

/-- Concrete route for witnesses. -/
def cw1route : RouteRow :=
  { route_id := "r", route_cn := "r", city_cn := "C", city_en := "C"
    geometry := some [⟨0, 0⟩, ⟨10, 0⟩] }

/-- A concrete stop of route "r" at the given longitude. -/
def mkStopGeo (sid : String) (lon : ℚ) (seq : Int) : StopRow :=
  { route_id := "r", stop_id := sid, name_cn := "n", name_en := "n"
    city_cn := "C", city_en := "C", sequence := seq, geometry := ⟨lon, 0⟩ }

/-- Concrete stops for the C1/C10 witnesses. -/
def cw1stops : List StopRow := [mkStopGeo "s1" 1 0, mkStopGeo "s2" 2 0, mkStopGeo "s3" 3 0]

/-- Witness for C1: three projectable stops yield 2 segments; one stop, or
an undefined geometry, yields the empty list. -/
theorem claim_C1_witness :
    (create_segments_from_route cw1ppl cw1ext cw1cd cw1route cw1stops).length = 2 ∧
    create_segments_from_route cw1ppl cw1ext cw1cd cw1route [mkStopGeo "s1" 1 0] = [] ∧
    create_segments_from_route cw1ppl cw1ext cw1cd
      { cw1route with geometry := none } cw1stops = [] := by
  refine ⟨?_, ?_, ?_⟩
  · rw [(claim_C1 cw1ppl cw1ext cw1cd cw1route cw1stops).1 [⟨0, 0⟩, ⟨10, 0⟩] rfl (by decide)
      (by decide) (by decide)]
    decide
  · exact (claim_C1 cw1ppl cw1ext cw1cd cw1route [mkStopGeo "s1" 1 0]).2.1 (by decide)
  · exact (claim_C1 cw1ppl cw1ext cw1cd { cw1route with geometry := none } cw1stops).2.2
      (Or.inl rfl)

theorem mkSegments_getElem (ext : List Point → ℚ → ℚ → Option (List Point))
    (cd : List Point → ℚ) (g : List Point) (cc ce : String) :
    ∀ (l : List Projection) (i : Nat) (h : i + 1 < l.length),
      (mkSegments ext cd g cc ce l)[i]? =
        some (mkSegment ext cd g cc ce (l.get ⟨i, by omega⟩) (l.get ⟨i + 1, h⟩))
  | [], i, h => by simp at h
  | [_], i, h => by simp at h
  | a :: b :: rest, 0, h => by simp [mkSegments]
  | a :: b :: rest, i + 1, h => by
    have ih := mkSegments_getElem ext cd g cc ce (b :: rest) i
      (by simpa [List.length_cons] using Nat.lt_of_succ_lt_succ h)
    simpa [mkSegments] using ih

/-- Claim C7: whenever the slicer returns `None` on a consecutive stop pair,
the emitted segment's geometry is the straight two-point line between the two
stops' raw locations, and its distance is computed from that fallback
geometry. -/
theorem claim_C7 (ppl : Point → List Point → Option ℚ)
    (ext : List Point → ℚ → ℚ → Option (List Point)) (cd : List Point → ℚ)
    (route_row : RouteRow) (stops_gdf : List StopRow) (g : List Point)
    (hg : route_row.geometry = some g) (hne : g.isEmpty = false)
    (hlen : 2 ≤ (get_route_stops_ordered route_row.route_id stops_gdf).length)
    (i : Nat) (hi : i + 1 < (sortedSurviving ppl route_row stops_gdf).length)
    (hnone : ext g
        ((sortedSurviving ppl route_row stops_gdf).get ⟨i, by omega⟩).projection_distance
        ((sortedSurviving ppl route_row stops_gdf).get ⟨i + 1, hi⟩).projection_distance
      = none) :
    ∃ seg, (create_segments_from_route ppl ext cd route_row stops_gdf)[i]? = some seg ∧
      seg.geometry =
        [((sortedSurviving ppl route_row stops_gdf).get ⟨i, by omega⟩).stop_data.geometry,
         ((sortedSurviving ppl route_row stops_gdf).get ⟨i + 1, hi⟩).stop_data.geometry] ∧
      seg.distance = cd
        [((sortedSurviving ppl route_row stops_gdf).get ⟨i, by omega⟩).stop_data.geometry,
         ((sortedSurviving ppl route_row stops_gdf).get ⟨i + 1, hi⟩).stop_data.geometry] := by
  rw [create_segments_eq ppl ext cd route_row stops_gdf g hg hne (by omega)]
  rw [mkSegments_getElem ext cd g route_row.city_cn route_row.city_en
    (sortedSurviving ppl route_row stops_gdf) i hi]
  simp only [List.get_eq_getElem] at hnone ⊢
  refine ⟨_, rfl, ?_, ?_⟩ <;> simp [mkSegment, hnone]

/-- Witness input check for C7 uses the always-failing slicer `cw1ext`. -/
theorem claim_C7_witness :
    ∃ seg, (create_segments_from_route cw1ppl cw1ext cw1cd cw1route cw1stops)[0]? = some seg ∧
      seg.geometry =
        [((sortedSurviving cw1ppl cw1route cw1stops).get ⟨0, by decide⟩).stop_data.geometry,
         ((sortedSurviving cw1ppl cw1route cw1stops).get ⟨1, by decide⟩).stop_data.geometry] ∧
      seg.distance = cw1cd
        [((sortedSurviving cw1ppl cw1route cw1stops).get ⟨0, by decide⟩).stop_data.geometry,
         ((sortedSurviving cw1ppl cw1route cw1stops).get ⟨1, by decide⟩).stop_data.geometry] :=
  claim_C7 cw1ppl cw1ext cw1cd cw1route cw1stops [⟨0, 0⟩, ⟨10, 0⟩] rfl (by decide) (by decide)
    0 (by decide) rfl

instance : IsTotal Projection projLE :=
  ⟨fun a b => le_total a.projection_distance b.projection_distance⟩

instance : IsTrans Projection projLE :=
  ⟨fun _ _ _ h1 h2 => le_trans h1 h2⟩

/-- The identity of the end stop of each emitted segment is the identity of
the start stop of the next one. -/
theorem chain_mkSegments (ext : List Point → ℚ → ℚ → Option (List Point))
    (cd : List Point → ℚ) (g : List Point) (cc ce : String) :
    ∀ l : List Projection,
      List.Chain' (fun a b => a.e_stopid = b.s_stopid ∧ a.e_stop_cn = b.s_stop_cn ∧
        a.e_stop_en = b.s_stop_en) (mkSegments ext cd g cc ce l)
  | [] => List.chain'_nil
  | [_] => by simp [mkSegments]
  | a :: b :: [] => by simp [mkSegments]
  | a :: b :: c :: rest => by
    have ih := chain_mkSegments ext cd g cc ce (b :: c :: rest)
    simp only [mkSegments] at ih ⊢
    exact List.Chain'.cons ⟨rfl, rfl, rfl⟩ ih

/-- The start stops of the emitted segments are the sorted surviving stops
without the last one, in order. -/
theorem mkSegments_map_start (ext : List Point → ℚ → ℚ → Option (List Point))
    (cd : List Point → ℚ) (g : List Point) (cc ce : String) :
    ∀ l : List Projection,
      (mkSegments ext cd g cc ce l).map (fun s => s.s_stopid) =
        l.dropLast.map (fun p => p.stop_data.stop_id)
  | [] => rfl
  | [_] => rfl
  | a :: b :: rest => by
    have ih := mkSegments_map_start ext cd g cc ce (b :: rest)
    simp only [mkSegments, List.map_cons, List.dropLast_cons₂] at ih ⊢
    rw [ih]
    rfl

theorem length_survivingOf_le (ppl : Point → List Point → Option ℚ)
    (route_row : RouteRow) (stops_gdf : List StopRow) :
    (survivingOf ppl route_row stops_gdf).length ≤
      (get_route_stops_ordered route_row.route_id stops_gdf).length := by
  unfold survivingOf
  cases route_row.geometry with
  | none => simp
  | some g => exact List.length_filterMap_le _ _

theorem dropLast_eq_nil_of_le_one {α : Type} {l : List α} (h : l.length ≤ 1) :
    l.dropLast = [] := by
  cases l with
  | nil => rfl
  | cons a t =>
    cases t with
    | nil => rfl
    | cons b t2 => simp at h

/-- Claim C10: chain invariant of the segmenter output: the end-stop identity
of each segment equals the start-stop identity of the next; the surviving
stops are sorted by projected position, and the emitted segments' start stops
follow that ascending order. -/
theorem claim_C10 (ppl : Point → List Point → Option ℚ)
    (ext : List Point → ℚ → ℚ → Option (List Point)) (cd : List Point → ℚ)
    (route_row : RouteRow) (stops_gdf : List StopRow) :
    List.Chain' (fun a b => a.e_stopid = b.s_stopid ∧ a.e_stop_cn = b.s_stop_cn ∧
      a.e_stop_en = b.s_stop_en) (create_segments_from_route ppl ext cd route_row stops_gdf) ∧
    List.Sorted projLE (sortedSurviving ppl route_row stops_gdf) ∧
    (∀ g : List Point, route_row.geometry = some g → g.isEmpty = false →
      (create_segments_from_route ppl ext cd route_row stops_gdf).map (fun s => s.s_stopid) =
        (sortedSurviving ppl route_row stops_gdf).dropLast.map
          (fun p => p.stop_data.stop_id)) := by
  refine ⟨?_, List.sorted_insertionSort projLE _, ?_⟩
  · by_cases hlt : (get_route_stops_ordered route_row.route_id stops_gdf).length < 2
    · unfold create_segments_from_route
      rw [if_pos hlt]
      exact List.chain'_nil
    · cases hgeo : route_row.geometry with
      | none =>
        unfold create_segments_from_route
        rw [if_neg hlt, hgeo]
        exact List.chain'_nil
      | some g =>
        by_cases hne : g.isEmpty
        · unfold create_segments_from_route
          rw [if_neg hlt, hgeo]
          simp only [hne, if_true]
          exact List.chain'_nil
        · rw [create_segments_eq ppl ext cd route_row stops_gdf g hgeo
            (Bool.not_eq_true _ ▸ hne) hlt]
          exact chain_mkSegments ext cd g route_row.city_cn route_row.city_en _
  · intro g hg hne
    by_cases hlt : (get_route_stops_ordered route_row.route_id stops_gdf).length < 2
    · unfold create_segments_from_route
      rw [if_pos hlt]
      have hlen : (sortedSurviving ppl route_row stops_gdf).length ≤ 1 := by
        rw [sortedSurviving, List.length_insertionSort]
        have := length_survivingOf_le ppl route_row stops_gdf
        omega
      rw [dropLast_eq_nil_of_le_one hlen]
      rfl
    · rw [create_segments_eq ppl ext cd route_row stops_gdf g hg hne hlt]
      exact mkSegments_map_start ext cd g route_row.city_cn route_row.city_en _

/-- Witness for C10 at the concrete three-stop route. -/
theorem claim_C10_witness :
    List.Chain' (fun a b => a.e_stopid = b.s_stopid ∧ a.e_stop_cn = b.s_stop_cn ∧
      a.e_stop_en = b.s_stop_en)
      (create_segments_from_route cw1ppl cw1ext cw1cd cw1route cw1stops) ∧
    (create_segments_from_route cw1ppl cw1ext cw1cd cw1route cw1stops).map
      (fun s => s.s_stopid) = ["s1", "s2"] := by
  have h := claim_C10 cw1ppl cw1ext cw1cd cw1route cw1stops
  refine ⟨h.1, ?_⟩
  rw [h.2.2 [⟨0, 0⟩, ⟨10, 0⟩] rfl (by decide)]
  decide

theorem round3_nonneg {q : ℚ} (h : 0 ≤ q) : 0 ≤ round3 q := by
  unfold round3
  have h1 : (0 : ℤ) ≤ round (q * 1000) := by
    rw [round_eq]
    refine Int.le_floor.mpr ?_
    push_cast
    linarith
  have h2 : (0 : ℚ) ≤ ((round (q * 1000) : ℤ) : ℚ) := by exact_mod_cast h1
  exact div_nonneg h2 (by norm_num)

/-- Claim C8: `calculate_segment_distance` is total (the embedding of the
try/except structure is a total function — the source never raises) and, when
the two library length computations return nonnegative values (lengths of
polylines with finite coordinates are nonnegative finite floats), its result
is nonnegative; it is the rounded planar length in km when reprojection
succeeds, else the rounded native length times 111.32, else 0. -/
theorem claim_C8 (planarLength nativeLength : List Point → Option ℚ)
    (segment_line : List Point)
    (hp : ∀ len, planarLength segment_line = some len → 0 ≤ len)
    (hn : ∀ len, nativeLength segment_line = some len → 0 ≤ len) :
    0 ≤ calculate_segment_distance planarLength nativeLength segment_line ∧
    ((∃ len, planarLength segment_line = some len ∧
        calculate_segment_distance planarLength nativeLength segment_line =
          round3 (len / 1000)) ∨
      (planarLength segment_line = none ∧ ∃ len, nativeLength segment_line = some len ∧
        calculate_segment_distance planarLength nativeLength segment_line =
          round3 (len * (11132 / 100))) ∨
      (planarLength segment_line = none ∧ nativeLength segment_line = none ∧
        calculate_segment_distance planarLength nativeLength segment_line = 0)) := by
  cases hpe : planarLength segment_line with
  | some len =>
    have h0 : 0 ≤ len := hp len hpe
    have heval : calculate_segment_distance planarLength nativeLength segment_line =
        round3 (len / 1000) := by
      unfold calculate_segment_distance
      rw [hpe]
    rw [heval]
    exact ⟨round3_nonneg (div_nonneg h0 (by norm_num)), Or.inl ⟨len, rfl, rfl⟩⟩
  | none =>
    cases hne : nativeLength segment_line with
    | some len =>
      have h0 : 0 ≤ len := hn len hne
      have heval : calculate_segment_distance planarLength nativeLength segment_line =
          round3 (len * (11132 / 100)) := by
        unfold calculate_segment_distance
        rw [hpe, hne]
      rw [heval]
      exact ⟨round3_nonneg (mul_nonneg h0 (by norm_num)),
        Or.inr (Or.inl ⟨rfl, len, rfl, rfl⟩)⟩
    | none =>
      have heval : calculate_segment_distance planarLength nativeLength segment_line = 0 := by
        unfold calculate_segment_distance
        rw [hpe, hne]
      rw [heval]
      exact ⟨le_refl 0, Or.inr (Or.inr ⟨rfl, rfl, rfl⟩)⟩

/-- Witness for C8: a successful 2500 m planar length yields 2.5 km. -/
theorem claim_C8_witness :
    0 ≤ calculate_segment_distance (fun _ => some 2500) (fun _ => none) [] ∧
    calculate_segment_distance (fun _ => some 2500) (fun _ => none) [] = 5 / 2 := by
  have h := claim_C8 (fun _ => some 2500) (fun _ => none) []
    (fun len hl => by simp at hl; subst hl; norm_num)
    (fun len hl => by simp at hl)
  refine ⟨h.1, ?_⟩
  norm_num [calculate_segment_distance, round3, round_eq]

theorem map_projCore_projectStops (ppl : Point → List Point → Option ℚ) (g : List Point)
    (l : List StopRow) :
    (projectStops ppl g l).map projCore =
      (l.map eraseSeq).filterMap (fun c => (ppl c.geometry g).map (fun d => (c, d))) := by
  rw [projectStops, List.map_filterMap, List.filterMap_map]
  congr 1
  funext s
  cases hcase : ppl s.geometry g <;> simp [projCore, eraseSeq, hcase]

/-- The sequence-erased content of the filtered-and-sequence-sorted stop list
is permutation-invariant under permuting and re-sequencing the input. -/
theorem core_perm_route_stops (rid : String) {l1 l2 : List StopRow}
    (h : (l1.map eraseSeq).Perm (l2.map eraseSeq)) :
    ((get_route_stops_ordered rid l1).map eraseSeq).Perm
      ((get_route_stops_ordered rid l2).map eraseSeq) := by
  have hfc : ∀ l : List StopRow, (l.filter (fun s => s.route_id == rid)).map eraseSeq =
      (l.map eraseSeq).filter (fun c => c.route_id == rid) := by
    intro l
    rw [List.filter_map]
    rfl
  have hperm : ((l1.filter (fun s => s.route_id == rid)).map eraseSeq).Perm
      ((l2.filter (fun s => s.route_id == rid)).map eraseSeq) := by
    rw [hfc, hfc]
    exact h.filter _
  have hlen : (l1.filter (fun s => s.route_id == rid)).length =
      (l2.filter (fun s => s.route_id == rid)).length := by
    have := hperm.length_eq
    simpa using this
  unfold get_route_stops_ordered
  by_cases h0 : (l1.filter (fun s => s.route_id == rid)).length = 0
  · rw [if_pos h0, if_pos (hlen ▸ h0)]
    exact hperm
  · rw [if_neg h0, if_neg (hlen ▸ h0)]
    exact (((List.perm_insertionSort seqLE _).map eraseSeq).trans hperm).trans
      ((List.perm_insertionSort seqLE _).map eraseSeq).symm

theorem surviving_core_perm (ppl : Point → List Point → Option ℚ) (route_row : RouteRow)
    {stops1 stops2 : List StopRow}
    (h : (stops1.map eraseSeq).Perm (stops2.map eraseSeq)) :
    ((survivingOf ppl route_row stops1).map projCore).Perm
      ((survivingOf ppl route_row stops2).map projCore) := by
  unfold survivingOf
  cases route_row.geometry with
  | none => simp
  | some g =>
    rw [map_projCore_projectStops, map_projCore_projectStops]
    exact (core_perm_route_stops route_row.route_id h).filterMap _

/-- Two sorted lists that are permutations of each other and have pairwise
distinct sort keys are equal. -/
theorem eq_of_perm_sorted_nodup {l1 l2 : List (StopCore × ℚ)}
    (hp : l1.Perm l2)
    (hs1 : List.Sorted (fun a b : StopCore × ℚ => a.2 ≤ b.2) l1)
    (hs2 : List.Sorted (fun a b : StopCore × ℚ => a.2 ≤ b.2) l2)
    (hnd : (l1.map Prod.snd).Nodup) : l1 = l2 := by
  have hnd1 : l1.Pairwise (fun a b => a.2 ≠ b.2) := (List.pairwise_map).mp hnd
  have hnd2 : l2.Pairwise (fun a b => a.2 ≠ b.2) :=
    (List.pairwise_map).mp ((hp.map Prod.snd).nodup hnd)
  have hlt1 : l1.Pairwise (fun a b : StopCore × ℚ => a.2 < b.2) :=
    (hs1.and hnd1).imp (fun h => lt_of_le_of_ne h.1 h.2)
  have hlt2 : l2.Pairwise (fun a b : StopCore × ℚ => a.2 < b.2) :=
    (hs2.and hnd2).imp (fun h => lt_of_le_of_ne h.1 h.2)
  haveI : IsAntisymm (StopCore × ℚ) (fun a b => a.2 < b.2) :=
    ⟨fun _ _ h1 h2 => absurd (lt_trans h1 h2) (lt_irrefl _)⟩
  exact List.eq_of_perm_of_sorted hp hlt1 hlt2

theorem sorted_map_projCore {l : List Projection} (h : List.Sorted projLE l) :
    List.Sorted (fun a b : StopCore × ℚ => a.2 ≤ b.2) (l.map projCore) :=
  List.Pairwise.map projCore (fun _ _ hab => hab) h

/-- The emitted segment depends on a stop pair only through the
sequence-erased content and the projection positions. -/
theorem mkSegment_congr (ext : List Point → ℚ → ℚ → Option (List Point))
    (cd : List Point → ℚ) (g : List Point) (cc ce : String) {s1 e1 s2 e2 : Projection}
    (hs : projCore s1 = projCore s2) (he : projCore e1 = projCore e2) :
    mkSegment ext cd g cc ce s1 e1 = mkSegment ext cd g cc ce s2 e2 := by
  have hs1 : eraseSeq s1.stop_data = eraseSeq s2.stop_data := congrArg Prod.fst hs
  have hsd : s1.projection_distance = s2.projection_distance := congrArg Prod.snd hs
  have he1 : eraseSeq e1.stop_data = eraseSeq e2.stop_data := congrArg Prod.fst he
  have hed : e1.projection_distance = e2.projection_distance := congrArg Prod.snd he
  have f1 : s1.stop_data.name_cn = s2.stop_data.name_cn := congrArg StopCore.name_cn hs1
  have f2 : s1.stop_data.name_en = s2.stop_data.name_en := congrArg StopCore.name_en hs1
  have f3 : s1.stop_data.stop_id = s2.stop_data.stop_id := congrArg StopCore.stop_id hs1
  have f4 : s1.stop_data.geometry = s2.stop_data.geometry := congrArg StopCore.geometry hs1
  have f5 : e1.stop_data.name_cn = e2.stop_data.name_cn := congrArg StopCore.name_cn he1
  have f6 : e1.stop_data.name_en = e2.stop_data.name_en := congrArg StopCore.name_en he1
  have f7 : e1.stop_data.stop_id = e2.stop_data.stop_id := congrArg StopCore.stop_id he1
  have f8 : e1.stop_data.geometry = e2.stop_data.geometry := congrArg StopCore.geometry he1
  simp only [mkSegment, hsd, hed, f1, f2, f3, f4, f5, f6, f7, f8]

theorem mkSegments_congr (ext : List Point → ℚ → ℚ → Option (List Point))
    (cd : List Point → ℚ) (g : List Point) (cc ce : String) :
    ∀ {l1 l2 : List Projection}, l1.map projCore = l2.map projCore →
      mkSegments ext cd g cc ce l1 = mkSegments ext cd g cc ce l2 := by
  intro l1
  induction l1 with
  | nil =>
    intro l2 h
    cases l2 with
    | nil => rfl
    | cons b t2 => simp at h
  | cons a t ih =>
    intro l2 h
    cases l2 with
    | nil => simp at h
    | cons b t2 =>
      simp only [List.map_cons, List.cons.injEq] at h
      obtain ⟨hab, ht⟩ := h
      cases t with
      | nil =>
        cases t2 with
        | nil => rfl
        | cons d t4 => simp at ht
      | cons c t3 =>
        cases t2 with
        | nil => simp at ht
        | cons d t4 =>
          have hcd : projCore c = projCore d := by
            simp only [List.map_cons, List.cons.injEq] at ht
            exact ht.1
          have htail := ih ht
          simp only [mkSegments]
          rw [mkSegment_congr ext cd g cc ce hab hcd, htail]

/-- Claim C5: two-run noninterference of the `sequence` hint and the input
order.  If two stop tables agree up to permutation and up to the values of
their `sequence` fields, and the surviving stops have pairwise distinct
projected positions, the segmenter emits identical segment lists. -/
theorem claim_C5 (ppl : Point → List Point → Option ℚ)
    (ext : List Point → ℚ → ℚ → Option (List Point)) (cd : List Point → ℚ)
    (route_row : RouteRow) (stops1 stops2 : List StopRow)
    (hperm : (stops1.map eraseSeq).Perm (stops2.map eraseSeq))
    (hnd : ((survivingOf ppl route_row stops1).map
      (fun p => p.projection_distance)).Nodup) :
    create_segments_from_route ppl ext cd route_row stops1 =
      create_segments_from_route ppl ext cd route_row stops2 := by
  have hcore := core_perm_route_stops route_row.route_id hperm
  have hlen : (get_route_stops_ordered route_row.route_id stops1).length =
      (get_route_stops_ordered route_row.route_id stops2).length := by
    have := hcore.length_eq
    simpa using this
  by_cases hlt : (get_route_stops_ordered route_row.route_id stops1).length < 2
  · unfold create_segments_from_route
    rw [if_pos hlt, if_pos (hlen ▸ hlt)]
  · cases hgeo : route_row.geometry with
    | none =>
      unfold create_segments_from_route
      rw [if_neg hlt, if_neg (hlen ▸ hlt), hgeo]
    | some g =>
      by_cases hne : g.isEmpty
      · unfold create_segments_from_route
        rw [if_neg hlt, if_neg (hlen ▸ hlt), hgeo]
        simp [hne]
      · rw [create_segments_eq ppl ext cd route_row stops1 g hgeo (by simpa using hne) hlt,
          create_segments_eq ppl ext cd route_row stops2 g hgeo (by simpa using hne)
            (hlen ▸ hlt)]
        apply mkSegments_congr
        have hsp := surviving_core_perm ppl route_row hperm
        have hp1 := List.perm_insertionSort projLE (survivingOf ppl route_row stops1)
        have hp2 := List.perm_insertionSort projLE (survivingOf ppl route_row stops2)
        have hfullperm : ((sortedSurviving ppl route_row stops1).map projCore).Perm
            ((sortedSurviving ppl route_row stops2).map projCore) :=
          ((hp1.map projCore).trans hsp).trans ((hp2.map projCore).symm)
        have hndsurv : (((survivingOf ppl route_row stops1).map projCore).map Prod.snd).Nodup := by
          rw [List.map_map]
          exact hnd
        have hnd1 : (((sortedSurviving ppl route_row stops1).map projCore).map Prod.snd).Nodup :=
          (((hp1.map projCore).map Prod.snd).symm).nodup hndsurv
        exact eq_of_perm_sorted_nodup hfullperm
          (sorted_map_projCore (List.sorted_insertionSort projLE _))
          (sorted_map_projCore (List.sorted_insertionSort projLE _)) hnd1

/-- First stop table for the C5 witness (sequences 0,1,2 in input order). -/
def cw5stops1 : List StopRow :=
  [mkStopGeo "s1" 1 0, mkStopGeo "s2" 2 1, mkStopGeo "s3" 3 2]

/-- Second stop table for the C5 witness: same stops permuted, with
different (even misleading) `sequence` values. -/
def cw5stops2 : List StopRow :=
  [mkStopGeo "s3" 3 0, mkStopGeo "s1" 1 5, mkStopGeo "s2" 2 (-7)]

/-- Witness for C5 at concrete permuted, re-sequenced stop tables. -/
theorem claim_C5_witness :
    create_segments_from_route cw1ppl cw1ext cw1cd cw1route cw5stops1 =
      create_segments_from_route cw1ppl cw1ext cw1cd cw1route cw5stops2 :=
  claim_C5 cw1ppl cw1ext cw1cd cw1route cw5stops1 cw5stops2 (by decide) (by decide)
